import Mathlib

/-!
Verification development for the `price_engine` options pricing engine
(`src/price_engine/src/main.rs`).

Shallow embedding conventions:
* `f64` values that the claims reason about (prices, strikes, volatilities,
  rates) are embedded as `ℚ`; the concrete arithmetic the claims mention is
  exact in binary floating point, so `ℚ` is a faithful model of it.
* `i64`/`u32` integers are embedded as `ℤ`/`ℕ` (no overflow occurs in the
  modelled paths).
* `Result<T, anyhow::Error>` is embedded as an `error` alternative carrying
  the error message; a Rust panic (`HashMap` index on a missing key,
  `Vec` index out of bounds, `unwrap` on `Err`) is a separate `panicked`
  alternative, distinct from an `error` return.
* The `HashMap` fields (`price_feeds`, `last_prices`) are embedded as
  association lists with unique keys; `keys().next()` is the head key of the
  list, `iter().find_map(...)` is `List.find?` over the list.
* The network (the Pyth Hermes stream) is a parameter of the oracle model:
  `stream feed_id` is the outcome of `client.stream_price_updates(...)`,
  yielding either a transport error or the list of events the stream
  produces before terminating.
* The external `blackscholes` crate (`Inputs::calc_price`) is a parameter
  `bs : OptionParams → ℚ` standing for `BlackScholes::calculate_premium`,
  and `SystemTime::now()` is a parameter `now : ℕ`.
* Oracle/network calls are made observable by returning a trace: the list of
  feed ids passed to `fetch_pyth_price_real`, in call order.
-/

/-- `PriceData` from main.rs. -/
structure PriceData where
  symbol : String
  price : ℚ
  timestamp : ℤ
  confidence : ℤ
deriving DecidableEq, Repr

/-- `OptionParams` from main.rs (`time_to_expiry` is passed in days). -/
structure OptionParams where
  underlying_price : ℚ
  strike_price : ℚ
  time_to_expiry : ℤ
  volatility : ℚ
  risk_free_rate : ℚ
  is_call : Bool
deriving DecidableEq, Repr

/-- `PremiumResult` from main.rs. -/
structure PremiumResult where
  strike : ℚ
  premium : ℚ
  timestamp : ℕ
deriving DecidableEq, Repr

/-- Outcome of running a fallible Rust function: a normal return, an `Err`
return, or a panic. -/
inductive Outcome (α : Type) where
  | ok (a : α)
  | error (e : String)
  | panicked (msg : String)
deriving DecidableEq, Repr

/-- One element of the parsed feed list inside a Hermes price update
(`price_feed.price` in main.rs): mantissa, exponent, publish time,
confidence. -/
structure FeedUpdate where
  priceMantissa : ℤ
  expo : ℤ
  publishTime : ℤ
  conf : ℤ
deriving DecidableEq, Repr

/-- One event yielded by `client.stream_price_updates(...)`: either an
`Err` item or an `Ok` update whose `parsed` field is an optional list of
feed updates. -/
inductive StreamEvent where
  | errEvent (msg : String)
  | update (parsed : Option (List FeedUpdate))
deriving DecidableEq, Repr

/-- `PythOracle` from main.rs. `price_feeds` is the symbol → feed-id
registry; `stream` models `client.stream_price_updates(...).await?` for a
feed id: a transport error, or the finite list of events the stream yields
before it ends. -/
structure PythOracle where
  price_feeds : List (String × String)
  stream : String → Except String (List StreamEvent)

/-- `EngineConfig` from main.rs. -/
structure EngineConfig where
  risk_free_rate : ℚ
  default_volatility : ℚ
  update_interval_secs : ℕ
deriving DecidableEq, Repr

/-- `EngineConfig::default()` from main.rs. -/
def EngineConfig.default : EngineConfig :=
  { risk_free_rate := 0.05, default_volatility := 0.8, update_interval_secs := 10 }

/-- `OptionsPricingEngine` from main.rs; `last_prices` is the
`RwLock<HashMap<String, PriceData>>` price cache state. -/
structure OptionsPricingEngine where
  oracle : PythOracle
  config : EngineConfig
  last_prices : List (String × PriceData)

/-- `PythOracle::fetch_volatility` from main.rs: always returns `Ok` with a
per-symbol constant. -/
def fetch_volatility (symbol : String) : ℚ :=
  if symbol = "BTC" then 0.8
  else if symbol = "ETH" then 0.9
  else if symbol = "SUI" then 1.2
  else 1

/-- The reverse registry lookup inside `fetch_pyth_price_real`
(`price_feeds.iter().find_map(...)`): the first symbol whose feed id equals
`feed_id`, defaulting to UNKNOWN. -/
def symbolForFeed (feeds : List (String × String)) (feed_id : String) : String :=
  ((feeds.find? (fun p => p.2 == feed_id)).map Prod.fst).getD ("UNKNOWN")

/-- The `PriceData` built from the first entry of a parsed update in
`fetch_pyth_price_real` (price = mantissa ·10^expo). -/
def mkPriceData (feeds : List (String × String)) (feed_id : String)
    (f : FeedUpdate) : PriceData :=
  { symbol := symbolForFeed feeds feed_id
    price := (f.priceMantissa : ℚ) * (10 : ℚ) ^ f.expo
    timestamp := f.publishTime
    confidence := f.conf }

/-- The `loop { match price_updates.next().await { ... } }` of
`fetch_pyth_price_real`: skip `Err` items and updates without a non-empty
parsed list, return the first well-formed sample, fail when the stream
ends. -/
def processStream (feeds : List (String × String)) (feed_id : String) :
    List StreamEvent → Except String PriceData
  | [] => .error ("Failed to fetch price data - stream ended without valid data")
  | .errEvent _ :: rest => processStream feeds feed_id rest
  | .update none :: rest => processStream feeds feed_id rest
  | .update (some []) :: rest => processStream feeds feed_id rest
  | .update (some (f :: _)) :: _ => .ok (mkPriceData feeds feed_id f)

/-- `PythOracle::fetch_pyth_price_real` from main.rs: open the stream
(propagating a transport error with ?), then scan it for the first valid
sample. -/
def fetch_pyth_price_real (o : PythOracle) (feed_id : String) :
    Except String PriceData :=
  match o.stream feed_id with
  | .error e => .error e
  | .ok events => processStream o.price_feeds feed_id events

/-- The price cache: association-list model of
`HashMap<String, PriceData>`. -/
abbrev Cache := List (String × PriceData)

/-- Keys of the cache, in iteration order. -/
def keysOf (m : Cache) : List String := m.map Prod.fst

/-- `HashMap::contains_key`-style membership test. -/
def containsKey (m : Cache) (k : String) : Bool := m.any (fun p => p.1 == k)

/-- `HashMap::get` on the association-list model. -/
def lookup (m : Cache) (k : String) : Option PriceData :=
  (m.find? (fun p => p.1 == k)).map Prod.snd

/-- `HashMap::remove` on the association-list model (removes the single
entry with the given key). -/
def removeKey (m : Cache) (k : String) : Cache :=
  m.eraseP (fun p => p.1 == k)

/-- `HashMap::insert` on the association-list model: replace in place if
the key is present, else append. -/
def insertKey (m : Cache) (k : String) (v : PriceData) : Cache :=
  if containsKey m k then m.map (fun p => if p.1 == k then (k, v) else p)
  else m ++ [(k, v)]

/-- Lines 201–209 of main.rs (the body of `start_price_updates` once the
sample is fetched): if the cache has at least 10 entries, remove the entry
at `keys().next()`, then insert the new sample. -/
def cacheInsert (m : Cache) (s : String) (v : PriceData) : Cache :=
  let m1 :=
    if 10 ≤ m.length then
      match (keysOf m).head? with
      | some k => removeKey m k
      | none => m
    else m
  insertKey m1 s v

/-- Folding a sequence of maintenance insertions over the empty cache. -/
def insertAll (ops : List (String × PriceData)) : Cache :=
  ops.foldl (fun m p => cacheInsert m p.1 p.2) []

/-- `OptionsPricingEngine::get_last_price` from main.rs. -/
def get_last_price (e : OptionsPricingEngine) (symbol : String) : Option PriceData :=
  lookup e.last_prices symbol

/-- `self.oracle.price_feeds[symbol]`: `HashMap` indexing, which panics
when the key is absent; `none` here models that panic. -/
def lookupFeed (feeds : List (String × String)) (s : String) : Option String :=
  (feeds.find? (fun p => p.1 == s)).map Prod.snd

/-- `OptionsPricingEngine::start_price_updates` from main.rs: fetch a fresh
sample for `symbols[0]` (panicking on an empty list, an unregistered
symbol, or — via `unwrap` — a failed fetch) and insert it into the cache
with the eviction rule of `cacheInsert`. Returns the outcome, the post
state, and the trace of fetched feed ids. -/
def start_price_updates (e : OptionsPricingEngine) (symbols : List String) :
    Outcome Unit × OptionsPricingEngine × List String :=
  match symbols with
  | [] => (.panicked ("index out of bounds"), e, [])
  | s0 :: _ =>
    match lookupFeed e.oracle.price_feeds s0 with
    | none => (.panicked ("no entry found for key"), e, [])
    | some feed =>
      match fetch_pyth_price_real e.oracle feed with
      | .error _ => (.panicked ("called Result unwrap on an Err value"), e, [feed])
      | .ok pd =>
        (.ok (), { e with last_prices := cacheInsert e.last_prices s0 pd }, [feed])

/-- The `OptionParams` record built inside `calculate_option_premium`. -/
def paramsFor (cfg : EngineConfig) (spot strike : ℚ) (days : ℕ)
    (symbol : String) (is_call : Bool) : OptionParams :=
  { underlying_price := spot
    strike_price := strike
    time_to_expiry := (days : ℤ)
    volatility := fetch_volatility symbol
    risk_free_rate := cfg.risk_free_rate
    is_call := is_call }

/-- `OptionsPricingEngine::calculate_option_premium` from main.rs:
index the feed registry (panicking on an unknown symbol), fetch a fresh
price (propagating a failure as an `Err` with the anyhow context message),
fetch volatility (infallible), run the Black–Scholes valuation `bs`, and
stamp with `now`. Returns the outcome, the post state, and the trace of
fetched feed ids. -/
def calculate_option_premium (bs : OptionParams → ℚ) (now : ℕ)
    (e : OptionsPricingEngine) (symbol : String) (strike : ℚ)
    (days_to_expiry : ℕ) (is_call : Bool) :
    Outcome PremiumResult × OptionsPricingEngine × List String :=
  match lookupFeed e.oracle.price_feeds symbol with
  | none => (.panicked ("no entry found for key"), e, [])
  | some feed =>
    match fetch_pyth_price_real e.oracle feed with
    | .error err =>
      (.error ("Failed to fetch price for symbol: " ++ symbol ++ ": " ++ err), e, [feed])
    | .ok pd =>
      (.ok { strike := strike
             premium := bs (paramsFor e.config pd.price strike days_to_expiry symbol is_call)
             timestamp := now }, e, [feed])

/-- The `while current_strike <= max_strike` loop of
`calculate_premium_curve`, indexed by fuel: `none` means the loop has not
terminated within `fuel` iterations. Each iteration computes the call and
the put premium (propagating the first error or panic) and appends the two
results, the put with a negated strike. -/
def curveAux (bs : OptionParams → ℚ) (now : ℕ) (symbol : String) (days : ℕ)
    (maxS step : ℚ) :
    ℕ → OptionsPricingEngine → ℚ →
    Option (Outcome (List PremiumResult) × OptionsPricingEngine × List String)
  | 0, e, cur =>
    if maxS < cur then some (.ok [], e, []) else none
  | fuel + 1, e, cur =>
    if maxS < cur then some (.ok [], e, []) else
    match calculate_option_premium bs now e symbol cur days true with
    | (.ok call, e1, t1) =>
      match calculate_option_premium bs now e1 symbol cur days false with
      | (.ok put, e2, t2) =>
        match curveAux bs now symbol days maxS step fuel e2 (cur + step) with
        | some (.ok rest, e3, t3) =>
          some (.ok ({ strike := cur, premium := call.premium, timestamp := call.timestamp } ::
                     { strike := -cur, premium := put.premium, timestamp := put.timestamp } ::
                     rest), e3, t1 ++ t2 ++ t3)
        | some (.error err, e3, t3) => some (.error err, e3, t1 ++ t2 ++ t3)
        | some (.panicked m, e3, t3) => some (.panicked m, e3, t1 ++ t2 ++ t3)
        | none => none
      | (.error err, e2, t2) => some (.error err, e2, t1 ++ t2)
      | (.panicked m, e2, t2) => some (.panicked m, e2, t1 ++ t2)
    | (.error err, e1, t1) => some (.error err, e1, t1)
    | (.panicked m, e1, t1) => some (.panicked m, e1, t1)

/-- `OptionsPricingEngine::calculate_premium_curve` from main.rs, with a
fuel bound on the strike loop (`none` = the loop ran longer than `fuel`
iterations, in particular when it does not terminate at all). -/
def calculate_premium_curve (bs : OptionParams → ℚ) (now : ℕ)
    (e : OptionsPricingEngine) (symbol : String) (days : ℕ)
    (strike_range : ℚ × ℚ × ℚ) (fuel : ℕ) :
    Option (Outcome (List PremiumResult) × OptionsPricingEngine × List String) :=
  curveAux bs now symbol days strike_range.2.1 strike_range.2.2 fuel e strike_range.1

/-- Spec-side strike grid ("iterate strike from min to max inclusive in
increments of step"), with the same fuel convention as the curve loop:
`none` means the iteration does not finish within `fuel` steps. -/
def gridAux (maxS step : ℚ) : ℕ → ℚ → Option (List ℚ)
  | 0, cur => if maxS < cur then some [] else none
  | fuel + 1, cur =>
    if maxS < cur then some []
    else (gridAux maxS step fuel (cur + step)).map (fun g => cur :: g)

/-!  Concrete instances used by witnesses and counterexamples.  -/

/-- The SUI feed id registered in `PythOracle::new()`. -/
def suiFeed : String := "0x23d7315113f5b1d3ba7a83604c44b94d79f4fd69af77f804fc7f920a6dc65744"

/-- A single well-formed stream event whose sample decodes to price 110. -/
def demoUpdate : FeedUpdate :=
  { priceMantissa := 110, expo := 0, publishTime := 1700000000, conf := 5 }

/-- A deterministic oracle with the registry of `PythOracle::new()`
(only SUI is registered) whose stream immediately yields one valid
110-priced sample for every feed. -/
def demoOracle : PythOracle :=
  { price_feeds := [("SUI", suiFeed)]
    stream := fun _ => .ok [.update (some [demoUpdate])] }

/-- The sample `fetch_pyth_price_real demoOracle suiFeed` produces. -/
def demoSample : PriceData :=
  { symbol := "SUI", price := 110 * (10 : ℚ) ^ (0 : ℤ), timestamp := 1700000000, confidence := 5 }

/-- An engine over `demoOracle` with the default config and an empty
cache. -/
def demoEngine : OptionsPricingEngine :=
  { oracle := demoOracle, config := EngineConfig.default, last_prices := [] }

/-- A stand-in for the external Black–Scholes valuation in concrete
witnesses (the claims settled on concrete inputs do not depend on the
premium values). -/
def bsZero : OptionParams → ℚ := fun _ => 0

/-- An engine whose oracle stream ends immediately, so every price fetch
fails. -/
def failEngine : OptionsPricingEngine :=
  { oracle := { price_feeds := [("SUI", suiFeed)], stream := fun _ => .ok [] }
    config := EngineConfig.default
    last_prices := [] }

/-- A concrete price sample keyed by a number, for cache scenarios. -/
def sampleAt (n : ℕ) : PriceData :=
  { symbol := "sym", price := n, timestamp := 0, confidence := 0 }

/-- A cache filled to capacity with ten distinct symbols. -/
def fullCache : Cache :=
  [("s0", sampleAt 0), ("s1", sampleAt 1), ("s2", sampleAt 2), ("s3", sampleAt 3),
   ("s4", sampleAt 4), ("s5", sampleAt 5), ("s6", sampleAt 6), ("s7", sampleAt 7),
   ("s8", sampleAt 8), ("s9", sampleAt 9)]

/-- Eleven insertions with pairwise-distinct symbols. -/
def ops11 : List (String × PriceData) :=
  [("a0", sampleAt 0), ("a1", sampleAt 1), ("a2", sampleAt 2), ("a3", sampleAt 3),
   ("a4", sampleAt 4), ("a5", sampleAt 5), ("a6", sampleAt 6), ("a7", sampleAt 7),
   ("a8", sampleAt 8), ("a9", sampleAt 9), ("a10", sampleAt 10)]

/-- Spec-side description of a valid stream event: an `Ok` update carrying
a non-empty parsed list; yields the sample the engine would build from
it. -/
def validSample (feeds : List (String × String)) (feed_id : String) :
    StreamEvent → Option PriceData
  | .update (some (f :: _)) => some (mkPriceData feeds feed_id f)
  | .update (some []) => none
  | .update none => none
  | .errEvent _ => none

/-- A stream with leading noise: an `Err` item, an update without parsed
data, an update with an empty parsed list, then two valid updates. -/
def noisyEvents : List StreamEvent :=
  [.errEvent ("transport glitch"), .update none, .update (some []),
   .update (some [demoUpdate]),
   .update (some [{ priceMantissa := 999, expo := 0, publishTime := 0, conf := 1 }])]

/-- An oracle yielding `noisyEvents` for every feed. -/
def noisyOracle : PythOracle :=
  { price_feeds := [("SUI", suiFeed)], stream := fun _ => .ok noisyEvents }

/-- An engine over `demoOracle` whose cache already holds an entry for a
different symbol. -/
def demoEngine2 : OptionsPricingEngine :=
  { oracle := demoOracle, config := EngineConfig.default
    last_prices := [("ETH", sampleAt 1)] }

/-!  Shared lemmas about `calculate_option_premium`.  -/

/-- On the success path (registered symbol, successful fetch),
`calculate_option_premium` returns the valuation of the freshly fetched
spot, leaves the engine unchanged, and performs exactly one oracle call. -/
theorem calcPremium_ok (bs : OptionParams → ℚ) (now : ℕ)
    (e : OptionsPricingEngine) (symbol : String) (strike : ℚ) (days : ℕ) (c : Bool)
    (feed : String) (pd : PriceData)
    (hfeed : lookupFeed e.oracle.price_feeds symbol = some feed)
    (hfetch : fetch_pyth_price_real e.oracle feed = .ok pd) :
    calculate_option_premium bs now e symbol strike days c =
      (.ok { strike := strike
             premium := bs (paramsFor e.config pd.price strike days symbol c)
             timestamp := now }, e, [feed]) := by
  simp only [calculate_option_premium, hfeed, hfetch]

/-- `calculate_option_premium` returns the engine state unchanged in every
branch. -/
theorem calcPremium_engine_eq (bs : OptionParams → ℚ) (now : ℕ)
    (e : OptionsPricingEngine) (symbol : String) (strike : ℚ) (days : ℕ) (c : Bool) :
    (calculate_option_premium bs now e symbol strike days c).2.1 = e := by
  unfold calculate_option_premium
  cases hl : lookupFeed e.oracle.price_feeds symbol with
  | none => rfl
  | some feed =>
    simp only
    cases hf : fetch_pyth_price_real e.oracle feed with
    | error err => simp only
    | ok pd => simp only

/-- The outcome and the oracle-call trace of `calculate_option_premium` do
not depend on the contents of the price cache. -/
theorem calcPremium_cache_independent (bs : OptionParams → ℚ) (now : ℕ)
    (e : OptionsPricingEngine) (m : Cache) (symbol : String) (strike : ℚ)
    (days : ℕ) (c : Bool) :
    (calculate_option_premium bs now { e with last_prices := m } symbol strike days c).1 =
      (calculate_option_premium bs now e symbol strike days c).1 ∧
    (calculate_option_premium bs now { e with last_prices := m } symbol strike days c).2.2 =
      (calculate_option_premium bs now e symbol strike days c).2.2 := by
  unfold calculate_option_premium
  cases hl : lookupFeed e.oracle.price_feeds symbol with
  | none => exact ⟨rfl, rfl⟩
  | some feed =>
    simp only
    cases hf : fetch_pyth_price_real e.oracle feed with
    | error err => exact ⟨rfl, rfl⟩
    | ok pd => exact ⟨rfl, rfl⟩

/-!  C1 — unknown symbols.  -/

/-- C1 (counterexample): "BTC" is not a key of the feed registry built by
`PythOracle::new()` (only "SUI" is), and `calculate_option_premium` on
"BTC" panics on the `price_feeds[symbol]` index — it does not return an
error value — although it does fail before any oracle call (empty trace). -/
theorem unknown_symbol_counterexample :
    calculate_option_premium bsZero 0 demoEngine "BTC" 100 7 true =
      (.panicked ("no entry found for key"), demoEngine, []) := rfl

/-- C1 (amended): for every symbol that is not a key of the feed registry,
`calculate_option_premium` panics on the registry index (rather than
returning a distinct error value) and performs no oracle/network call
before failing. -/
theorem unknown_symbol_panics (bs : OptionParams → ℚ) (now : ℕ)
    (e : OptionsPricingEngine) (symbol : String) (strike : ℚ) (days : ℕ) (c : Bool)
    (h : lookupFeed e.oracle.price_feeds symbol = none) :
    calculate_option_premium bs now e symbol strike days c =
      (.panicked ("no entry found for key"), e, []) := by
  simp only [calculate_option_premium, h]

/-- C1 (witness): the amended statement at the concrete unregistered
symbol "BTC". -/
theorem unknown_symbol_witness :
    lookupFeed demoEngine.oracle.price_feeds "BTC" = none ∧
    calculate_option_premium bsZero 3 demoEngine "BTC" 100 7 true =
      (.panicked ("no entry found for key"), demoEngine, []) :=
  ⟨rfl, unknown_symbol_panics bsZero 3 demoEngine "BTC" 100 7 true rfl⟩

/-!  C8 — oracle fetch failure in the pricing path.  -/

/-- C8: for a registered symbol whose oracle fetch fails,
`calculate_option_premium` fails with the context-wrapped fetch error; no
premium is produced from a cached or default price (the outcome carries no
`PremiumResult` at all), and the engine state is unchanged. -/
theorem premium_fetch_error_fails (bs : OptionParams → ℚ) (now : ℕ)
    (e : OptionsPricingEngine) (symbol : String) (strike : ℚ) (days : ℕ) (c : Bool)
    (feed : String) (err : String)
    (hfeed : lookupFeed e.oracle.price_feeds symbol = some feed)
    (hfetch : fetch_pyth_price_real e.oracle feed = .error err) :
    calculate_option_premium bs now e symbol strike days c =
      (.error ("Failed to fetch price for symbol: " ++ symbol ++ ": " ++ err), e, [feed]) := by
  simp only [calculate_option_premium, hfeed, hfetch]

/-- C8 (witness): the statement at a concrete engine whose stream ends
with no data. -/
theorem premium_fetch_error_witness :
    lookupFeed failEngine.oracle.price_feeds "SUI" = some suiFeed ∧
    fetch_pyth_price_real failEngine.oracle suiFeed =
      .error ("Failed to fetch price data - stream ended without valid data") ∧
    calculate_option_premium bsZero 0 failEngine "SUI" 100 7 true =
      (.error ("Failed to fetch price for symbol: " ++ "SUI" ++ ": " ++
        "Failed to fetch price data - stream ended without valid data"), failEngine, [suiFeed]) :=
  ⟨rfl, rfl,
    premium_fetch_error_fails bsZero 0 failEngine "SUI" 100 7 true suiFeed
      ("Failed to fetch price data - stream ended without valid data") rfl rfl⟩

/-!  C10 — the pricing path and the cache.  -/

/-- C10: `calculate_option_premium` neither writes the price cache (the
post-state cache equals the pre-state cache) nor reads it (outcome and
oracle-call trace are unchanged when the cache contents are replaced), and
on success the valuation's underlying price is exactly the freshly fetched
spot. -/
theorem premium_cache_frame (bs : OptionParams → ℚ) (now : ℕ)
    (e : OptionsPricingEngine) (m : Cache) (symbol : String) (strike : ℚ)
    (days : ℕ) (c : Bool) (feed : String) (pd : PriceData) :
    ((calculate_option_premium bs now e symbol strike days c).2.1.last_prices =
      e.last_prices) ∧
    ((calculate_option_premium bs now { e with last_prices := m } symbol strike days c).1 =
      (calculate_option_premium bs now e symbol strike days c).1) ∧
    (lookupFeed e.oracle.price_feeds symbol = some feed →
     fetch_pyth_price_real e.oracle feed = .ok pd →
     calculate_option_premium bs now e symbol strike days c =
       (.ok { strike := strike
              premium := bs (paramsFor e.config pd.price strike days symbol c)
              timestamp := now }, e, [feed])) :=
  ⟨by rw [calcPremium_engine_eq],
   (calcPremium_cache_independent bs now e m symbol strike days c).1,
   fun h1 h2 => calcPremium_ok bs now e symbol strike days c feed pd h1 h2⟩

/-- C10 (witness): the statement at the concrete demo engine, with the
cache replaced by a one-entry cache. -/
theorem premium_cache_frame_witness :
    ((calculate_option_premium bsZero 0 demoEngine "SUI" 100 7 true).2.1.last_prices =
      demoEngine.last_prices) ∧
    ((calculate_option_premium bsZero 0
        { demoEngine with last_prices := [("BTC", demoSample)] } "SUI" 100 7 true).1 =
      (calculate_option_premium bsZero 0 demoEngine "SUI" 100 7 true).1) ∧
    (lookupFeed demoEngine.oracle.price_feeds "SUI" = some suiFeed →
     fetch_pyth_price_real demoEngine.oracle suiFeed = .ok demoSample →
     calculate_option_premium bsZero 0 demoEngine "SUI" 100 7 true =
       (.ok { strike := 100
              premium := bsZero (paramsFor demoEngine.config demoSample.price 100 7 "SUI" true)
              timestamp := 0 }, demoEngine, [suiFeed])) :=
  premium_cache_frame bsZero 0 demoEngine [("BTC", demoSample)] "SUI" 100 7 true suiFeed demoSample

/-!  Lemmas about the association-list cache.  -/

/-- `containsKey` agrees with membership in the key list. -/
theorem containsKey_iff (m : Cache) (k : String) :
    containsKey m k = true ↔ k ∈ keysOf m := by
  simp [containsKey, keysOf, List.any_eq_true, List.mem_map]

/-- `insertKey` grows the cache by one exactly when the key is fresh. -/
theorem insertKey_length (m : Cache) (k : String) (v : PriceData) :
    (insertKey m k v).length = if containsKey m k then m.length else m.length + 1 := by
  unfold insertKey
  split
  · simp [List.length_map, *]
  · simp [*]

/-- Every binding of `insertKey m k v` is a binding of `m` or the new
one. -/
theorem mem_insertKey (m : Cache) (k : String) (v : PriceData) (p : String × PriceData)
    (hp : p ∈ insertKey m k v) : p ∈ m ∨ p = (k, v) := by
  unfold insertKey at hp
  split at hp
  · rcases List.mem_map.mp hp with ⟨q, hq, he⟩
    by_cases hk : (q.1 == k) = true
    · rw [if_pos hk] at he
      exact .inr he.symm
    · rw [if_neg hk] at he
      rw [← he]
      exact .inl hq
  · rcases List.mem_append.mp hp with h | h
    · exact .inl h
    · exact .inr (by simpa using h)

/-- Every binding of `cacheInsert m s v` is a binding of `m` or the new
one. -/
theorem mem_cacheInsert (m : Cache) (s : String) (v : PriceData) (p : String × PriceData)
    (hp : p ∈ cacheInsert m s v) : p ∈ m ∨ p = (s, v) := by
  unfold cacheInsert at hp
  rcases mem_insertKey _ _ _ _ hp with h | h
  · left
    revert h
    split
    · split
      · intro h
        exact (List.eraseP_sublist _).subset h
      · exact fun h => h
    · exact fun h => h
  · exact .inr h

/-- Keys after a `cacheInsert` come from the old cache or are the
inserted key. -/
theorem mem_keysOf_cacheInsert (m : Cache) (s : String) (v : PriceData) (k : String)
    (hk : k ∈ keysOf (cacheInsert m s v)) : k ∈ keysOf m ∨ k = s := by
  rcases List.mem_map.mp hk with ⟨p, hp, he⟩
  rcases mem_cacheInsert _ _ _ _ hp with h | h
  · exact .inl (he ▸ List.mem_map_of_mem Prod.fst h)
  · right
    rw [h] at he
    exact he.symm ▸ rfl

/-- A cache within capacity stays within capacity across one maintenance
insert. -/
theorem cacheInsert_length_le (m : Cache) (s : String) (v : PriceData)
    (h : m.length ≤ 10) : (cacheInsert m s v).length ≤ 10 := by
  unfold cacheInsert
  by_cases h10 : 10 ≤ m.length
  · have hlen : m.length = 10 := le_antisymm h h10
    cases m with
    | nil => simp at hlen
    | cons p t =>
      simp only [if_pos h10, keysOf, List.map_cons, List.head?_cons]
      have ht : removeKey (p :: t) p.1 = t := by
        simp [removeKey, List.eraseP_cons]
      simp only [List.length_cons] at hlen
      rw [ht, insertKey_length]
      split
      · omega
      · omega
  · rw [if_neg h10, insertKey_length]
    split
    · omega
    · omega

/-- Inserting a fresh key takes the cache size to `min (n + 1) 10`. -/
theorem cacheInsert_length_fresh (m : Cache) (s : String) (v : PriceData)
    (hfresh : containsKey m s = false) (h : m.length ≤ 10) :
    (cacheInsert m s v).length = min (m.length + 1) 10 := by
  unfold cacheInsert
  by_cases h10 : 10 ≤ m.length
  · have hlen : m.length = 10 := le_antisymm h h10
    cases m with
    | nil => simp at hlen
    | cons p t =>
      simp only [if_pos h10, keysOf, List.map_cons, List.head?_cons]
      have ht : removeKey (p :: t) p.1 = t := by
        simp [removeKey, List.eraseP_cons]
      have htf : containsKey t s = false := by
        simp only [containsKey, List.any_cons, Bool.or_eq_false_iff] at hfresh ⊢
        exact hfresh.2
      rw [ht, insertKey_length, htf]
      simp at hlen
      simp [hlen]
  · rw [if_neg h10, insertKey_length, hfresh]
    simp
    omega

/-- Bindings produced by a fold of maintenance inserts come from the
start cache or from the inserted pairs. -/
theorem insertAll_aux_mem :
    ∀ (ops : List (String × PriceData)) (m : Cache) (p : String × PriceData),
    p ∈ ops.foldl (fun acc q => cacheInsert acc q.1 q.2) m → p ∈ m ∨ p ∈ ops := by
  intro ops
  induction ops with
  | nil => exact fun m p hp => .inl hp
  | cons q rest ih =>
    intro m p hp
    simp only [List.foldl_cons] at hp
    rcases ih _ p hp with h | h
    · rcases mem_cacheInsert _ _ _ _ h with h' | h'
      · exact .inl h'
      · exact .inr (by simp [h'])
    · exact .inr (List.mem_cons_of_mem _ h)

/-- The capacity bound is preserved by any fold of maintenance inserts. -/
theorem insertAll_aux_le :
    ∀ (ops : List (String × PriceData)) (m : Cache),
    m.length ≤ 10 →
    (ops.foldl (fun acc q => cacheInsert acc q.1 q.2) m).length ≤ 10 := by
  intro ops
  induction ops with
  | nil => exact fun m h => h
  | cons q rest ih =>
    intro m h
    simp only [List.foldl_cons]
    exact ih _ (cacheInsert_length_le m q.1 q.2 h)

/-- Size after folding distinct-key inserts over a disjoint cache:
`min (start + count) 10`. -/
theorem insertAll_aux_length :
    ∀ (ops : List (String × PriceData)) (m : Cache),
    (ops.map Prod.fst).Nodup →
    (∀ k ∈ keysOf m, k ∉ ops.map Prod.fst) →
    m.length ≤ 10 →
    (ops.foldl (fun acc q => cacheInsert acc q.1 q.2) m).length =
      min (m.length + ops.length) 10 := by
  intro ops
  induction ops with
  | nil =>
    intro m _ _ hle
    simpa using Nat.min_eq_left hle
  | cons q rest ih =>
    intro m hnd hdisj hle
    simp only [List.foldl_cons]
    have hfresh : containsKey m q.1 = false := by
      rcases Bool.eq_false_or_eq_true (containsKey m q.1) with h | h
      · have := hdisj q.1 ((containsKey_iff m q.1).mp h)
        simp at this
      · exact h
    have h1 : (cacheInsert m q.1 q.2).length = min (m.length + 1) 10 :=
      cacheInsert_length_fresh m q.1 q.2 hfresh hle
    have h2 : (cacheInsert m q.1 q.2).length ≤ 10 := by omega
    have hnd' : (rest.map Prod.fst).Nodup := by
      simp only [List.map_cons, List.nodup_cons] at hnd
      exact hnd.2
    have hq1 : q.1 ∉ rest.map Prod.fst := by
      simp only [List.map_cons, List.nodup_cons] at hnd
      exact hnd.1
    have hdisj' : ∀ k ∈ keysOf (cacheInsert m q.1 q.2), k ∉ rest.map Prod.fst := by
      intro k hk
      rcases mem_keysOf_cacheInsert _ _ _ _ hk with hkm | hks
      · have := hdisj k hkm
        simp only [List.map_cons, List.mem_cons] at this
        intro hc
        exact this (.inr hc)
      · rw [hks]
        exact hq1
    rw [ih _ hnd' hdisj' h2, h1]
    simp only [List.length_cons]
    omega

/-- A successful `lookup` exhibits a binding of the cache. -/
theorem lookup_mem (m : Cache) (k : String) (v : PriceData)
    (h : lookup m k = some v) : (k, v) ∈ m := by
  unfold lookup at h
  rcases Option.map_eq_some'.mp h with ⟨p, hfind, hsnd⟩
  have hmem := List.mem_of_find?_eq_some hfind
  have hpred := List.find?_some hfind
  simp only [beq_iff_eq] at hpred
  have : p = (k, v) := by
    rw [← hpred, ← hsnd]
  rw [this] at hmem
  exact hmem

/-- A key the cache contains has a `lookup` value. -/
theorem containsKey_lookup (m : Cache) (k : String)
    (h : containsKey m k = true) : ∃ v, lookup m k = some v := by
  unfold containsKey at h
  rcases List.any_eq_true.mp h with ⟨p, hp, hpk⟩
  have : (m.find? (fun q => q.1 == k)).isSome :=
    List.find?_isSome.mpr ⟨p, hp, hpk⟩
  rcases Option.isSome_iff_exists.mp this with ⟨q, hq⟩
  exact ⟨q.2, by simp [lookup, hq]⟩

/-- In a list of pairs with pairwise-distinct keys, a key determines its
value. -/
theorem nodup_key_unique :
    ∀ (ops : List (String × PriceData)) (k : String) (v1 v2 : PriceData),
    (ops.map Prod.fst).Nodup → (k, v1) ∈ ops → (k, v2) ∈ ops → v1 = v2 := by
  intro ops
  induction ops with
  | nil => simp
  | cons q rest ih =>
    intro k v1 v2 hnd h1 h2
    simp only [List.map_cons, List.nodup_cons] at hnd
    rcases List.mem_cons.mp h1 with e1 | m1 <;> rcases List.mem_cons.mp h2 with e2 | m2
    · rw [← e1] at e2
      exact ((Prod.mk.injEq _ _ _ _).mp e2).2.symm
    · exfalso
      apply hnd.1
      rw [← e1]
      simpa using List.mem_map_of_mem Prod.fst m2
    · exfalso
      apply hnd.1
      rw [← e2]
      simpa using List.mem_map_of_mem Prod.fst m1
    · exact ih k v1 v2 hnd.2 m1 m2

/-!  C3 — eviction condition of the maintenance insert.  -/

/-- C3 (counterexample): a full 10-entry cache that already contains the
inserted symbol "s5" still suffers an eviction — the insert removes the
unrelated entry "s0" and shrinks the cache to 9 — refuting "no eviction
happens when the symbol is already a key". -/
theorem cache_evicts_present_key_counterexample :
    containsKey fullCache "s5" = true ∧
    fullCache.length = 10 ∧
    (cacheInsert fullCache "s5" (sampleAt 99)).length = 9 ∧
    lookup fullCache "s0" = some (sampleAt 0) ∧
    lookup (cacheInsert fullCache "s5" (sampleAt 99)) "s0" = none := by
  decide

/-- C3 (amended): the maintenance insert evicts exactly one entry (the one
at the head of the key iteration order) if and only if the cache holds at
least K = 10 entries — regardless of whether the inserted symbol is
already present; below capacity it is a plain insert. -/
theorem cache_insert_evicts_iff_full (m : Cache) (s : String) (v : PriceData) :
    (10 ≤ m.length →
      ∃ k, (keysOf m).head? = some k ∧
        cacheInsert m s v = insertKey (removeKey m k) s v ∧
        (removeKey m k).length + 1 = m.length) ∧
    (m.length < 10 → cacheInsert m s v = insertKey m s v) := by
  constructor
  · intro h
    cases m with
    | nil => simp at h
    | cons p t =>
      refine ⟨p.1, by simp [keysOf], ?_, ?_⟩
      · have h9 : 9 ≤ t.length := by
          simp at h
          omega
        simp [cacheInsert, keysOf, h9]
      · have ht : removeKey (p :: t) p.1 = t := by
          simp [removeKey, List.eraseP_cons]
        rw [ht]
        simp
  · intro h
    simp [cacheInsert, Nat.not_le.mpr h]

/-- C3 (witness): the amended statement applied to the concrete full
cache. -/
theorem cache_insert_evicts_witness :
    10 ≤ fullCache.length ∧
    ((10 ≤ fullCache.length →
      ∃ k, (keysOf fullCache).head? = some k ∧
        cacheInsert fullCache "s5" (sampleAt 99) =
          insertKey (removeKey fullCache k) "s5" (sampleAt 99) ∧
        (removeKey fullCache k).length + 1 = fullCache.length) ∧
     (fullCache.length < 10 →
      cacheInsert fullCache "s5" (sampleAt 99) = insertKey fullCache "s5" (sampleAt 99))) :=
  ⟨by decide, cache_insert_evicts_iff_full fullCache "s5" (sampleAt 99)⟩

/-!  C4 — capacity invariant and last-inserted samples.  -/

/-- C4: after any sequence of maintenance inserts starting from the empty
cache the size is at most K = 10; after inserting K + 1 = 11 pairwise
distinct symbols the size is exactly 10, and every still-present symbol
maps to its (unique) inserted sample unchanged. -/
theorem cache_bounded_and_returns_last (ops : List (String × PriceData))
    (hnd : (ops.map Prod.fst).Nodup) (hlen : ops.length = 11) :
    (∀ ops' : List (String × PriceData), (insertAll ops').length ≤ 10) ∧
    (insertAll ops).length = 10 ∧
    (∀ p ∈ ops, containsKey (insertAll ops) p.1 = true →
      lookup (insertAll ops) p.1 = some p.2) := by
  refine ⟨fun ops' => insertAll_aux_le ops' [] (by simp), ?_, ?_⟩
  · have h := insertAll_aux_length ops [] hnd (by simp [keysOf]) (by simp)
    rw [insertAll, h, hlen]
    simp
  · intro p hp hck
    rcases containsKey_lookup _ _ hck with ⟨v, hv⟩
    have hmem := lookup_mem _ _ _ hv
    have hops : (p.1, v) ∈ ops := by
      rcases insertAll_aux_mem ops [] _ hmem with h | h
      · simp at h
      · exact h
    have hp' : (p.1, p.2) ∈ ops := by
      rw [Prod.mk.eta]
      exact hp
    rw [hv, nodup_key_unique ops p.1 v p.2 hnd hops hp']

/-- C4 (witness): the statement at eleven concrete distinct symbols. -/
theorem cache_bounded_witness :
    (ops11.map Prod.fst).Nodup ∧ ops11.length = 11 ∧
    ((∀ ops' : List (String × PriceData), (insertAll ops').length ≤ 10) ∧
     (insertAll ops11).length = 10 ∧
     (∀ p ∈ ops11, containsKey (insertAll ops11) p.1 = true →
        lookup (insertAll ops11) p.1 = some p.2)) :=
  ⟨by decide, by decide, cache_bounded_and_returns_last ops11 (by decide) (by decide)⟩

/-!  Curve loop characterization (C5) and the missing range check (C2).  -/

/-- When the symbol is registered and the fetch succeeds, the curve loop
produces, for each grid strike in order, the call result with the strike as
given followed by the put result with the strike negated, and performs two
oracle fetches per strike. -/
theorem curveAux_ok (bs : OptionParams → ℚ) (now : ℕ) (e : OptionsPricingEngine)
    (symbol feed : String) (pd : PriceData) (days : ℕ) (maxS step : ℚ)
    (hfeed : lookupFeed e.oracle.price_feeds symbol = some feed)
    (hfetch : fetch_pyth_price_real e.oracle feed = .ok pd) :
    ∀ (fuel : ℕ) (cur : ℚ) (g : List ℚ),
    gridAux maxS step fuel cur = some g →
    curveAux bs now symbol days maxS step fuel e cur =
      some (.ok (g.flatMap (fun s =>
        [{ strike := s
           premium := bs (paramsFor e.config pd.price s days symbol true)
           timestamp := now },
         { strike := -s
           premium := bs (paramsFor e.config pd.price s days symbol false)
           timestamp := now }])), e, g.flatMap (fun _ => [feed, feed])) := by
  intro fuel
  induction fuel with
  | zero =>
    intro cur g hg
    simp only [gridAux] at hg
    split at hg
    · cases hg
      simp [curveAux, *]
    · cases hg
  | succ fuel ih =>
    intro cur g hg
    simp only [gridAux] at hg
    by_cases hc : maxS < cur
    · rw [if_pos hc] at hg
      cases hg
      simp [curveAux, hc]
    · rw [if_neg hc] at hg
      rcases Option.map_eq_some'.mp hg with ⟨g', hg', hgc⟩
      have hcall := calcPremium_ok bs now e symbol cur days true feed pd hfeed hfetch
      have hput := calcPremium_ok bs now e symbol cur days false feed pd hfeed hfetch
      have hrec := ih (cur + step) g' hg'
      rw [← hgc]
      simp only [curveAux, if_neg hc, hcall, hput, hrec, List.flatMap_cons]
      rfl

/-- C5: `calculate_premium_curve` iterates the strike from min to max
inclusive in increments of step (the grid `g`), appending for each strike
first the call result with the strike as given and then the put result
with the strike negated; the engine state is unchanged and two fetches
happen per strike. -/
theorem premium_curve_strikes (bs : OptionParams → ℚ) (now : ℕ)
    (e : OptionsPricingEngine) (symbol feed : String) (pd : PriceData)
    (days : ℕ) (minS maxS step : ℚ) (fuel : ℕ) (g : List ℚ)
    (hfeed : lookupFeed e.oracle.price_feeds symbol = some feed)
    (hfetch : fetch_pyth_price_real e.oracle feed = .ok pd)
    (hgrid : gridAux maxS step fuel minS = some g) :
    calculate_premium_curve bs now e symbol days (minS, maxS, step) fuel =
      some (.ok (g.flatMap (fun s =>
        [{ strike := s
           premium := bs (paramsFor e.config pd.price s days symbol true)
           timestamp := now },
         { strike := -s
           premium := bs (paramsFor e.config pd.price s days symbol false)
           timestamp := now }])), e, g.flatMap (fun _ => [feed, feed])) := by
  simp only [calculate_premium_curve]
  exact curveAux_ok bs now e symbol feed pd days maxS step hfeed hfetch fuel minS g hgrid

/-- The grid is empty once the cursor has passed the maximum. -/
theorem gridAux_stop (maxS step : ℚ) (fuel : ℕ) (cur : ℚ) (hc : maxS < cur) :
    gridAux maxS step fuel cur = some [] := by
  cases fuel <;> simp [gridAux, hc]

/-- One unfolding step of the grid below the maximum. -/
theorem gridAux_step (maxS step : ℚ) (fuel : ℕ) (cur next : ℚ) (g : List ℚ)
    (hc : ¬ maxS < cur) (hn : cur + step = next)
    (hg : gridAux maxS step fuel next = some g) :
    gridAux maxS step (fuel + 1) cur = some (cur :: g) := by
  simp only [gridAux, if_neg hc, hn, hg, Option.map_some']

/-- The concrete grid of the spec's curve test: min 100, max 120, step 10
gives the strikes 100, 110, 120. -/
theorem grid_demo : gridAux 120 10 10 100 = some [100, 110, 120] := by
  have h130 : gridAux 120 10 7 130 = some [] :=
    gridAux_stop 120 10 7 130 (by norm_num)
  have h120 : gridAux 120 10 8 120 = some [120] :=
    gridAux_step 120 10 7 120 130 [] (by norm_num) (by norm_num) h130
  have h110 : gridAux 120 10 9 110 = some [110, 120] :=
    gridAux_step 120 10 8 110 120 [120] (by norm_num) (by norm_num) h120
  exact gridAux_step 120 10 9 100 110 [110, 120] (by norm_num) (by norm_num) h110

/-- C5 (witness): on a deterministic oracle returning spot 110, the range
(100, 120, 10) yields exactly 6 results whose strikes are, in order,
100, −100, 110, −110, 120, −120. -/
theorem premium_curve_strikes_witness :
    lookupFeed demoEngine.oracle.price_feeds "SUI" = some suiFeed ∧
    fetch_pyth_price_real demoEngine.oracle suiFeed = .ok demoSample ∧
    demoSample.price = 110 ∧
    gridAux 120 10 10 100 = some [100, 110, 120] ∧
    calculate_premium_curve bsZero 0 demoEngine "SUI" 7 (100, 120, 10) 10 =
      some (.ok [{ strike := 100, premium := 0, timestamp := 0 },
                 { strike := -100, premium := 0, timestamp := 0 },
                 { strike := 110, premium := 0, timestamp := 0 },
                 { strike := -110, premium := 0, timestamp := 0 },
                 { strike := 120, premium := 0, timestamp := 0 },
                 { strike := -120, premium := 0, timestamp := 0 }],
        demoEngine, [suiFeed, suiFeed, suiFeed, suiFeed, suiFeed, suiFeed]) := by
  refine ⟨rfl, rfl, by norm_num [demoSample], grid_demo, ?_⟩
  have h := premium_curve_strikes bsZero 0 demoEngine "SUI" suiFeed demoSample
    7 100 120 10 10 [100, 110, 120] rfl rfl grid_demo
  exact h.trans (by rfl)

/-- With a non-positive step, a registered symbol and a succeeding oracle,
the curve loop never reaches its exit condition: it runs out of any amount
of fuel (each consumed unit of fuel performing two more oracle fetches). -/
theorem curveAux_diverges (bs : OptionParams → ℚ) (now : ℕ)
    (e : OptionsPricingEngine) (symbol feed : String) (pd : PriceData)
    (days : ℕ) (maxS step : ℚ)
    (hfeed : lookupFeed e.oracle.price_feeds symbol = some feed)
    (hfetch : fetch_pyth_price_real e.oracle feed = .ok pd)
    (hstep : step ≤ 0) :
    ∀ (fuel : ℕ) (cur : ℚ), cur ≤ maxS →
    curveAux bs now symbol days maxS step fuel e cur = none := by
  intro fuel
  induction fuel with
  | zero =>
    intro cur hc
    simp [curveAux, not_lt.mpr hc]
  | succ fuel ih =>
    intro cur hc
    have hcall := calcPremium_ok bs now e symbol cur days true feed pd hfeed hfetch
    have hput := calcPremium_ok bs now e symbol cur days false feed pd hfeed hfetch
    have hnext : cur + step ≤ maxS := by linarith
    simp only [curveAux, if_neg (not_lt.mpr hc), hcall, hput, ih (cur + step) hnext]

/-- C2: `calculate_premium_curve` performs no validation of the strike
range — with step = 0 (and min ≤ max) it never returns `InvalidRange` or
anything else: for every fuel bound the loop is still running, fetching
prices on every iteration. -/
theorem invalid_range_not_checked :
    ∀ fuel : ℕ,
    calculate_premium_curve bsZero 0 demoEngine "SUI" 7 (100, 120, 0) fuel = none := by
  intro fuel
  simp only [calculate_premium_curve]
  exact curveAux_diverges bsZero 0 demoEngine "SUI" suiFeed demoSample 7 120 0
    rfl rfl (le_refl 0) fuel 100 (by norm_num)

/-!  C7 — first-valid-sample semantics of the stream fetch.  -/

/-- The stream-processing loop returns the first valid sample of the event
list (skipping `Err` items and updates without parsed data) and fails
exactly when no event is valid. -/
theorem processStream_eq (feeds : List (String × String)) (feed_id : String) :
    ∀ events : List StreamEvent,
    processStream feeds feed_id events =
      match events.findSome? (validSample feeds feed_id) with
      | some pd => .ok pd
      | none => .error ("Failed to fetch price data - stream ended without valid data") := by
  intro events
  induction events with
  | nil => rfl
  | cons ev rest ih =>
    cases ev with
    | errEvent m =>
      simpa [processStream, List.findSome?_cons, validSample] using ih
    | update parsed =>
      cases parsed with
      | none =>
        simpa [processStream, List.findSome?_cons, validSample] using ih
      | some l =>
        cases l with
        | nil =>
          simpa [processStream, List.findSome?_cons, validSample] using ih
        | cons f fs =>
          simp [processStream, List.findSome?_cons, validSample]

/-- C7: once the subscription yields its event stream, the fetch returns
the first valid (parsed, well-formed) sample; error events and updates
without parsed data are skipped, and the call fails exactly when the
stream terminates before any valid sample. -/
theorem fetch_first_valid (o : PythOracle) (feed : String) (events : List StreamEvent)
    (hstream : o.stream feed = .ok events) :
    fetch_pyth_price_real o feed =
      match events.findSome? (validSample o.price_feeds feed) with
      | some pd => .ok pd
      | none => .error ("Failed to fetch price data - stream ended without valid data") := by
  unfold fetch_pyth_price_real
  rw [hstream]
  exact processStream_eq o.price_feeds feed events

/-- C7 (witness): on a stream with an error event and two unparsable
updates before the first valid one, the fetch skips the noise and returns
the sample of the first valid update. -/
theorem fetch_first_valid_witness :
    noisyOracle.stream suiFeed = .ok noisyEvents ∧
    noisyEvents.findSome? (validSample noisyOracle.price_feeds suiFeed) =
      some (mkPriceData noisyOracle.price_feeds suiFeed demoUpdate) ∧
    fetch_pyth_price_real noisyOracle suiFeed =
      (match noisyEvents.findSome? (validSample noisyOracle.price_feeds suiFeed) with
       | some pd => .ok pd
       | none => .error ("Failed to fetch price data - stream ended without valid data")) :=
  ⟨rfl, rfl, fetch_first_valid noisyOracle suiFeed noisyEvents rfl⟩

/-!  Lookup behaviour of `insertKey` and `removeKey`.  -/

/-- Removing the head's key removes exactly the head. -/
theorem removeKey_head (p : String × PriceData) (t : Cache) :
    removeKey (p :: t) p.1 = t := by
  simp [removeKey, List.eraseP_cons]

/-- On a cache containing the key, the replace-map of `insertKey` puts the
new binding at the found position. -/
theorem find_map_replace (k : String) (v : PriceData) :
    ∀ m : Cache, containsKey m k = true →
    (m.map (fun p => if p.1 == k then (k, v) else p)).find? (fun p => p.1 == k) =
      some (k, v) := by
  intro m
  induction m with
  | nil =>
    intro hc
    simp [containsKey] at hc
  | cons p t ih =>
    intro hc
    by_cases h : (p.1 == k) = true
    · simp only [List.map_cons, if_pos h, List.find?_cons, beq_self_eq_true, cond_true]
    · have hb : (p.1 == k) = false := Bool.eq_false_iff.mpr h
      rw [List.map_cons, if_neg h]
      simp only [List.find?_cons, hb, cond_false]
      apply ih
      simp only [containsKey, List.any_cons, Bool.or_eq_true] at hc
      rcases hc with h' | h'
      · exact absurd h' h
      · exact h'

/-- The replace-map of `insertKey` for key `k` does not affect searches
for a different key `s`. -/
theorem find_map_replace_ne (k s : String) (v : PriceData) (hne : s ≠ k) :
    ∀ m : Cache,
    (m.map (fun p => if p.1 == k then (k, v) else p)).find? (fun p => p.1 == s) =
      m.find? (fun p => p.1 == s) := by
  have hks : (k == s) = false := by
    simp [beq_eq_false_iff_ne, Ne.symm hne]
  intro m
  induction m with
  | nil => rfl
  | cons p t ih =>
    simp only [List.map_cons]
    by_cases h : (p.1 == k) = true
    · have hk : p.1 = k := beq_iff_eq.mp h
      have h2 : (p.1 == s) = false := by rw [hk]; exact hks
      rw [if_pos h]
      simp only [List.find?_cons, hks, h2, cond_false, ih]
    · by_cases hs : (p.1 == s) = true
      · rw [if_neg h]
        simp only [List.find?_cons, hs, cond_true]
      · have hb : (p.1 == s) = false := Bool.eq_false_iff.mpr hs
        rw [if_neg h]
        simp only [List.find?_cons, hb, cond_false, ih]

/-- After `insertKey m k v`, looking up `k` yields `v`. -/
theorem lookup_insertKey_self (m : Cache) (k : String) (v : PriceData) :
    lookup (insertKey m k v) k = some v := by
  unfold insertKey lookup
  by_cases hc : containsKey m k = true
  · rw [if_pos hc, find_map_replace k v m hc]
    rfl
  · rw [if_neg hc]
    have hnone : m.find? (fun p => p.1 == k) = none := by
      apply List.find?_eq_none.mpr
      intro p hp
      simp only [containsKey] at hc
      intro hpk
      exact hc (List.any_eq_true.mpr ⟨p, hp, hpk⟩)
    rw [List.find?_append, hnone]
    simp only [List.find?_cons, beq_self_eq_true, cond_true, Option.none_or, Option.map_some']

/-- `insertKey` for key `k` leaves lookups of other keys unchanged. -/
theorem lookup_insertKey_ne (m : Cache) (k s : String) (v : PriceData)
    (hne : s ≠ k) : lookup (insertKey m k v) s = lookup m s := by
  have hks : (k == s) = false := by
    simp [beq_eq_false_iff_ne, Ne.symm hne]
  unfold insertKey lookup
  split
  · rw [find_map_replace_ne k s v hne m]
  · rw [List.find?_append]
    have h1 : [(k, v)].find? (fun p => p.1 == s) = none := by
      simp only [List.find?_cons, hks, cond_false, List.find?_nil]
    rw [h1]
    simp

/-!  C6 — the maintenance path touches only the first symbol.  -/

/-- If a symbol resolves in the tail of a duplicate-free cache, it
resolves to the same sample in the whole cache. -/
theorem lookup_cons_of_tail (p : String × PriceData) (t : Cache)
    (hnd : (keysOf (p :: t)).Nodup) (s : String) (v : PriceData)
    (h : lookup t s = some v) : lookup (p :: t) s = some v := by
  have hs : s ∈ keysOf t :=
    List.mem_map_of_mem Prod.fst (lookup_mem t s v h)
  have hps : (p.1 == s) = false := by
    simp only [keysOf, List.map_cons, List.nodup_cons] at hnd
    rcases Bool.eq_false_or_eq_true (p.1 == s) with hb | hb
    · exact absurd (beq_iff_eq.mp hb ▸ hs) hnd.1
    · exact hb
  unfold lookup
  simp only [List.find?_cons, hps, cond_false]
  exact h

/-- C6: for a non-empty symbol list, `start_price_updates` contacts the
oracle only for the first symbol's feed; no cache entry of any other
symbol is created or updated (bindings of other symbols present afterwards
were already present with the same sample — eviction may only remove); on
success the first symbol's entry holds the freshly fetched sample. -/
theorem start_updates_only_first (e : OptionsPricingEngine) (s0 : String)
    (rest : List String) (hnd : (keysOf e.last_prices).Nodup) :
    (∀ f ∈ (start_price_updates e (s0 :: rest)).2.2,
        lookupFeed e.oracle.price_feeds s0 = some f) ∧
    (∀ s, s ≠ s0 → ∀ v,
        lookup (start_price_updates e (s0 :: rest)).2.1.last_prices s = some v →
        lookup e.last_prices s = some v) ∧
    ((start_price_updates e (s0 :: rest)).1 = .ok () →
      ∃ feed pd, lookupFeed e.oracle.price_feeds s0 = some feed ∧
        fetch_pyth_price_real e.oracle feed = .ok pd ∧
        lookup (start_price_updates e (s0 :: rest)).2.1.last_prices s0 = some pd) := by
  cases hl : lookupFeed e.oracle.price_feeds s0 with
  | none =>
    refine ⟨?_, ?_, ?_⟩
    · intro f hf
      simp [start_price_updates, hl] at hf
    · intro s hs v hv
      simpa [start_price_updates, hl] using hv
    · intro h
      simp [start_price_updates, hl] at h
  | some feed =>
    cases hf : fetch_pyth_price_real e.oracle feed with
    | error err =>
      refine ⟨?_, ?_, ?_⟩
      · intro f hfm
        simp only [start_price_updates, hl, hf, List.mem_singleton] at hfm
        rw [hfm]
      · intro s hs v hv
        simpa [start_price_updates, hl, hf] using hv
      · intro h
        simp [start_price_updates, hl, hf] at h
    | ok pd =>
      refine ⟨?_, ?_, ?_⟩
      · intro f hfm
        simp only [start_price_updates, hl, hf, List.mem_singleton] at hfm
        rw [hfm]
      · intro s hs v hv
        simp only [start_price_updates, hl, hf] at hv
        rw [cacheInsert] at hv
        rw [lookup_insertKey_ne _ _ _ _ hs] at hv
        by_cases h10 : 10 ≤ e.last_prices.length
        · rw [if_pos h10] at hv
          cases hm : e.last_prices with
          | nil =>
            rw [hm] at h10
            simp at h10
          | cons p t =>
            rw [hm] at hv
            simp only [keysOf, List.map_cons, List.head?_cons] at hv
            rw [removeKey_head] at hv
            rw [hm] at hnd
            exact lookup_cons_of_tail p t hnd s v hv
        · rw [if_neg h10] at hv
          exact hv
      · intro h
        refine ⟨feed, pd, rfl, hf, ?_⟩
        simp only [start_price_updates, hl, hf]
        rw [cacheInsert]
        exact lookup_insertKey_self _ s0 pd

/-- C6 (witness): the statement at a concrete engine with a one-entry
cache and the symbol list SUI, BTC. -/
theorem start_updates_only_first_witness :
    (keysOf demoEngine2.last_prices).Nodup ∧
    ((∀ f ∈ (start_price_updates demoEngine2 ("SUI" :: ["BTC"])).2.2,
        lookupFeed demoEngine2.oracle.price_feeds "SUI" = some f) ∧
     (∀ s, s ≠ "SUI" → ∀ v,
        lookup (start_price_updates demoEngine2 ("SUI" :: ["BTC"])).2.1.last_prices s = some v →
        lookup demoEngine2.last_prices s = some v) ∧
     ((start_price_updates demoEngine2 ("SUI" :: ["BTC"])).1 = .ok () →
       ∃ feed pd, lookupFeed demoEngine2.oracle.price_feeds "SUI" = some feed ∧
         fetch_pyth_price_real demoEngine2.oracle feed = .ok pd ∧
         lookup (start_price_updates demoEngine2 ("SUI" :: ["BTC"])).2.1.last_prices "SUI" =
           some pd)) :=
  ⟨by decide, start_updates_only_first demoEngine2 "SUI" ["BTC"] (by decide)⟩
